import Mathlib

set_option autoImplicit false

/-
Verification of the sequential EP update driver
(src/src/eptools/FactorizedEPDriver.h, FactorizedEPDriver::sequentialUpdate,
lines 270-481) against its natural-language specification.

The driver state is embedded shallowly: machine doubles become rationals,
the sparse factor representation becomes a list of rows, the return status
codes become an inductive type, and the InvalidParameterException thrown on
a bad damping factor becomes the error arm of an Except.  The potential
manager (the moment-matching oracle) is external to the driver and is passed
as a function parameter.  The maximum-value services
(FactEPMaximumPiValues / AValues / CValues) are included from headers whose
sources are not part of this repository snapshot; they are modelled from the
specification where noted below.
-/

namespace ApBsInT

/-- Return status constants of FactorizedEPDriver (updSuccess, updCavityInvalid,
updNumericalError, updMarginalsInvalid, updCavCondSkipped; lines 100-104). -/
inductive UpdStatus where
  | success
  | cavityInvalid
  | numericalError
  | marginalsInvalid
  | cavCondSkipped
deriving DecidableEq

/-- The exception thrown by sequentialUpdate on a damping factor outside [0,1)
(line 287-288); distinct from the five returned status codes. -/
inductive EPExc where
  | invalidParameter
deriving DecidableEq

/-- One position ii of a factor row: the variable index vjInd[ii], the
coefficient bP[ii], and the message parameters betaP[ii], piP[ii]. -/
structure Ent where
  i : Nat
  b : Rat
  beta : Rat
  pi : Rat
deriving DecidableEq

/-- Modelled from the spec: the maximum-message-precision index
(FactEPMaximumPiValues and the analogous A and C services, spec section 4.C);
their implementation files are not under src/.  Contents are entries
(variable index, factor index, stored value). -/
abbrev MaxIdx := List (Nat × Nat × Rat)

/-- Modelled from the spec: getMaxValue(i) returns the maximum stored value
over the entries for variable i (0 when no entry is stored for i). -/
def getMaxValue (idx : MaxIdx) (i : Nat) : Rat :=
  match (idx.filter (fun t => t.1 == i)).map (fun t => t.2.2) with
  | [] => 0
  | v :: vs => vs.foldl max v

/-- Modelled from the spec: update(i, j, v) replaces the stored entry for
(i, j) by v, inserting it when absent. -/
def idxUpdate (idx : MaxIdx) (i j : Nat) (v : Rat) : MaxIdx :=
  if idx.any (fun t => t.1 == i && t.2.1 == j) then
    idx.map (fun t => if t.1 = i ∧ t.2.1 = j then (i, j, v) else t)
  else
    (i, j, v) :: idx

/-- The bivariate-precision part of the state (FactEPRepresBivarPrec plus the
margA/margC vectors and the optional a and c maximum-value services): per
potential j the message parameters a_j, c_j and the precision variable k(j);
per precision variable k the aggregate marginals a_k, c_k. -/
structure BVSt where
  aMsg : List Rat
  cMsg : List Rat
  kOf : List Nat
  margA : List Rat
  margC : List Rat
  maxA : Option MaxIdx
  maxC : Option MaxIdx
deriving DecidableEq

/-- The observable state touched by sequentialUpdate: the factor rows
(design matrix entries with their beta/pi messages), the marginal vectors,
the optional max-pi service, and the optional bivariate-precision part. -/
structure EPSt where
  rows : List (List Ent)
  margPi : List Rat
  margBeta : List Rat
  maxPi : Option MaxIdx
  bv : Option BVSt
deriving DecidableEq

/-- The outcome of one sequentialUpdate call: the status code, the state after
the call, the value written to the effDamp out-pointer (none when the pointer
was not written), and, when the delta out-pointer is written, the quadruple
(mH, mRho, mprH, mprRho) from which the delta value is computed. -/
structure UpdOutput where
  status : UpdStatus
  st : EPSt
  effDamp : Option Rat
  deltaMoments : Option (Rat × Rat × Rat × Rat)
deriving DecidableEq

/-- The constant 1e-6 of line 364 (threshold on |b_ji|). -/
def bThres : Rat := 1 / 1000000

/-- The constant 1e-10 of lines 368 and 382 (denominator guard). -/
def denomThres : Rat := 1 / 10000000000

/-- The constant 0.02 of lines 401 and 429 (selective-damping skip threshold). -/
def skipThres : Rat := 1 / 50

/-- Cavity precision pi_i - pi_ji of line 314. -/
def cavPi (margPi : List Rat) (e : Ent) : Rat :=
  margPi.getD e.i 0 - e.pi

/-- Cavity beta parameter beta_i - beta_ji of line 316. -/
def cavBeta (margBeta : List Rat) (e : Ent) : Rat :=
  margBeta.getD e.i 0 - e.beta

/-- Cavity moments (cH, cRho) on s_j accumulated in the loop of lines 309-323:
cRho = sum of b(b/cPi), cH = sum of (b/cPi) cBeta. -/
def cavMoments (margPi margBeta : List Rat) (row : List Ent) : Rat × Rat :=
  ((row.map (fun e => (e.b / cavPi margPi e) * cavBeta margBeta e)).sum,
   (row.map (fun e => e.b * (e.b / cavPi margPi e))).sum)

/-- Marginal moments (mH, mRho) on s_j accumulated in the same loop from the
current marginals (lines 320-322), used for the delta metric. -/
def margMoments (margPi margBeta : List Rat) (row : List Ent) : Rat × Rat :=
  ((row.map (fun e => (e.b / margPi.getD e.i 0) * margBeta.getD e.i 0)).sum,
   (row.map (fun e => e.b * (e.b / margPi.getD e.i 0))).sum)

/-- The undamped EP message update for one position (lines 364-387).  Returns
none where the C++ code returns updNumericalError.  For |b| strictly above
1e-6: temp2 = cPi/b, guard temp2/b - nu against 1e-10, e = 1/(temp2/b - nu),
new pi = e cPi nu, new beta = e (cBeta nu + temp2 alpha).  Otherwise:
guard cPi - nu b^2 against 1e-10, t = b/(cPi - nu b^2), new pi = t b nu cPi,
new beta = t (cBeta b nu + cPi alpha). -/
def compUndamped (bval cPi cBeta alpha nu : Rat) : Option (Rat × Rat) :=
  if bThres < |bval| then
    let temp2 := cPi / bval
    let den := temp2 / bval - nu
    if den < denomThres then none
    else
      let e := 1 / den
      some (e * cPi * nu, e * (cBeta * nu + temp2 * alpha))
  else
    let den := cPi - nu * bval * bval
    if den < denomThres then none
    else
      let t := bval / den
      some (t * bval * nu * cPi, t * (cBeta * bval * nu + cPi * alpha))

/-- The selective-damping quantity 1-eta of line 400:
min((pi_i - kappa_i - piMinThres)/(pi_ji - prPi), 1). -/
def oneEtaPi (margPi : List Rat) (piMin : Rat) (idx : MaxIdx) (e : Ent)
    (prPi : Rat) : Rat :=
  min ((margPi.getD e.i 0 - getMaxValue idx e.i - piMin) / (e.pi - prPi)) 1

/-- The selective-damping step for one position (lines 390-416), entered when
the max-pi service is present.  When the undamped message precision decreases
(prPi < pi_ji): kappa_i nonpositive gives updNumericalError; 1-eta at most
0.02 gives updCavCondSkipped; otherwise the damping factor is raised to
max(dampFact, 1 - (1-eta)). -/
def selDamp (margPi : List Rat) (piMin : Rat) (idx : MaxIdx) (e : Ent)
    (prPi damp : Rat) : Except UpdStatus Rat :=
  if prPi < e.pi then
    let kappa := getMaxValue idx e.i
    if kappa ≤ 0 then Except.error UpdStatus.numericalError
    else
      let oneEta := oneEtaPi margPi piMin idx e prPi
      if oneEta ≤ skipThres then Except.error UpdStatus.cavCondSkipped
      else Except.ok (max damp (1 - oneEta))
  else Except.ok damp

/-- The loop of lines 356-417: per position, the undamped message update
(updNumericalError on guard failure) followed, when the max-pi service is
present, by the selective-damping step.  Returns the effective damping factor
and the list of undamped messages (prPi, prBeta) in row order. -/
def msgLoop (margPi margBeta : List Rat) (maxPi : Option MaxIdx)
    (piMin alpha nu : Rat) :
    List Ent → Rat → Except UpdStatus (Rat × List (Rat × Rat))
  | [], damp => Except.ok (damp, [])
  | e :: es, damp =>
    match compUndamped e.b (cavPi margPi e) (cavBeta margBeta e) alpha nu with
    | none => Except.error UpdStatus.numericalError
    | some pr =>
      match maxPi with
      | none =>
        (msgLoop margPi margBeta none piMin alpha nu es damp).map
          (fun r => (r.1, pr :: r.2))
      | some idx =>
        match selDamp margPi piMin idx e pr.1 damp with
        | Except.error s => Except.error s
        | Except.ok damp2 =>
          (msgLoop margPi margBeta (some idx) piMin alpha nu es damp2).map
            (fun r => (r.1, pr :: r.2))

/-- The bivariate-precision selective-damping block of lines 418-436,
transcribed as written.  The C++ code here reuses the loop variables i, ii and
prPi left over from the univariate loop: i and prPi hold the values of the
last iteration, while ii equals vjSz, so piP[ii] reads one past the end of the
row's pi array (modelled below as the value 0).  The clamp compares prA
against a_j but is otherwise computed from the pi quantities (mPiP[i],
piMinThres), and the c max-value service is never consulted at all. -/
def bvClamp (margPi : List Rat) (piMin : Rat) (bv : BVSt) (j : Nat)
    (row : List Ent) (msgs : List (Rat × Rat)) (hatA cA damp : Rat) :
    Except UpdStatus Rat :=
  let prA := hatA - cA
  match bv.maxA with
  | none => Except.ok damp
  | some idxA =>
    if prA < bv.aMsg.getD j 0 then
      let kappaA := getMaxValue idxA (bv.kOf.getD j 0)
      let iStale := ((row.map Ent.i).getLast?).getD 0
      let prPiStale := ((msgs.map Prod.fst).getLast?).getD 0
      let piPastEnd : Rat := 0
      let oneEta :=
        min ((margPi.getD iStale 0 - max kappaA 0 - piMin) /
              (piPastEnd - prPiStale)) 1
      if oneEta ≤ skipThres then Except.error UpdStatus.cavCondSkipped
      else Except.ok (max damp (1 - oneEta))
    else Except.ok damp

/-- Damping of one undamped message pair (lines 447-451): when dampFact is
positive, pr + dampFact (old - pr) componentwise; otherwise pr unchanged. -/
def dampPair (damp : Rat) (e : Ent) (pr : Rat × Rat) : Rat × Rat :=
  if 0 < damp then
    (pr.1 + damp * (e.pi - pr.1), pr.2 + damp * (e.beta - pr.2))
  else pr

/-- New marginal pi value for one position (line 454): cavity plus damped
message precision. -/
def newMPi (margPi : List Rat) (damp : Rat) (p : Ent × (Rat × Rat)) : Rat :=
  cavPi margPi p.1 + (dampPair damp p.1 p.2).1

/-- New marginal beta value for one position (line 456): cavity plus damped
message beta parameter. -/
def newMBeta (margBeta : List Rat) (damp : Rat) (p : Ent × (Rat × Rat)) : Rat :=
  cavBeta margBeta p.1 + (dampPair damp p.1 p.2).2

/-- The committed row entry for one position (line 466): the damped message
pair replaces the stored beta/pi, the variable index and coefficient stay. -/
def newEnt (damp : Rat) (p : Ent × (Rat × Rat)) : Ent :=
  { p.1 with pi := (dampPair damp p.1 p.2).1, beta := (dampPair damp p.1 p.2).2 }

/-- Sequential writes m.set key value over a list of (key, value) pairs, as
the commit loop of lines 461-474 writes the marginal vectors. -/
def commitFold (base : List Rat) (vals : List (Nat × Rat)) : List Rat :=
  vals.foldl (fun m p => m.set p.1 p.2) base

/-- Sequential epMaxPi updates over a list of (variable, new pi) pairs
(line 473). -/
def idxFold (idx : MaxIdx) (j : Nat) (vals : List (Nat × Rat)) : MaxIdx :=
  vals.foldl (fun a p => idxUpdate a p.1 j p.2) idx

/-- The bivariate cavity parameters (cA, cC) of lines 325-327:
a_{k(j)} - a_j and c_{k(j)} - c_j; (0, 0) in univariate mode, where the
corresponding oracle input slots are not read. -/
def cavACC (st : EPSt) (j : Nat) : Rat × Rat :=
  match st.bv with
  | none => (0, 0)
  | some bv =>
    (bv.margA.getD (bv.kOf.getD j 0) 0 - bv.aMsg.getD j 0,
     bv.margC.getD (bv.kOf.getD j 0) 0 - bv.cMsg.getD j 0)

/-- The bivariate cavity checks of lines 324-329: in bivariate mode, the
update fails when a_{k(j)} - a_j falls below aMinThres/2 or c_{k(j)} - c_j
falls below cMinThres/2. -/
def bvCavityBad (st : EPSt) (aMin cMin : Rat) (j : Nat) : Bool :=
  match st.bv with
  | none => false
  | some _ =>
    decide ((cavACC st j).1 < aMin / 2) || decide ((cavACC st j).2 < cMin / 2)

/-- The bivariate clamp stage: bvClamp in bivariate mode, identity on the
damping factor in univariate mode (the block of lines 418-436 is guarded by
hasBVPrec). -/
def clampStage (st : EPSt) (piMin : Rat) (j : Nat) (row : List Ent)
    (msgs : List (Rat × Rat)) (hatA cA damp : Rat) : Except UpdStatus Rat :=
  match st.bv with
  | none => Except.ok damp
  | some bv => bvClamp st.margPi piMin bv j row msgs hatA cA damp

/-- The commit phase and delta moments of lines 459-478, entered once the
update can no longer fail: writes the new messages into row j, the new
marginals (cavity plus damped message) into the marginal vectors, updates the
pi max-value service per touched variable, and builds the delta moment
quadruple when requested.  The bivariate message and marginal parameters are
not written (nothing in the source commit loop touches them). -/
def successOut (st : EPSt) (j : Nat) (damp2 : Rat) (row : List Ent)
    (msgs : List (Rat × Rat)) (wantDelta wantEffDamp : Bool) : UpdOutput :=
  let L := row.zip msgs
  let newRow := L.map (newEnt damp2)
  let margPi' := commitFold st.margPi
    (L.map (fun p => (p.1.i, newMPi st.margPi damp2 p)))
  let margBeta' := commitFold st.margBeta
    (L.map (fun p => (p.1.i, newMBeta st.margBeta damp2 p)))
  let maxPi' :=
    match st.maxPi with
    | none => none
    | some idx =>
      some (idxFold idx j (L.map (fun p => (p.1.i, (dampPair damp2 p.1 p.2).1))))
  let st' : EPSt := ⟨st.rows.set j newRow, margPi', margBeta', maxPi', st.bv⟩
  let dmom :=
    if wantDelta then
      let mm := margMoments st.margPi st.margBeta row
      some (mm.1, mm.2,
            (L.map (fun p => (p.1.b / newMPi st.margPi damp2 p) *
              newMBeta st.margBeta damp2 p)).sum,
            (L.map (fun p => p.1.b * (p.1.b / newMPi st.margPi damp2 p))).sum)
    else none
  ⟨UpdStatus.success, st', if wantEffDamp then some damp2 else none, dmom⟩

/-- The body of FactorizedEPDriver::sequentialUpdate after the damping-factor
validation (lines 289-481), as a total function on the embedded state.
Stages in source order: cavity computation with the pi cavity checks
(lines 309-323), the bivariate cavity checks (324-329), the moment-matching
oracle call (337-351), the undamped-message and selective-damping loop
(356-417), the bivariate clamp block (418-436), the effDamp write (437), the
damped messages and new-marginal checks (441-458), and the commit together
with the delta moments (459-478). -/
def updCore (st : EPSt) (piMin aMin cMin : Rat)
    (oracle : Rat → Rat → Rat → Rat → Option (Rat × Rat × Rat × Rat))
    (j : Nat) (dampFact : Rat) (wantDelta wantEffDamp : Bool) : UpdOutput :=
  let row := st.rows.getD j []
  let thres2 := piMin / 2
  if row.any (fun e => decide (cavPi st.margPi e < thres2)) then
    ⟨UpdStatus.cavityInvalid, st, none, none⟩
  else
    if bvCavityBad st aMin cMin j then
      ⟨UpdStatus.cavityInvalid, st, none, none⟩
    else
      let mom := cavMoments st.margPi st.margBeta row
      match oracle mom.1 mom.2 (cavACC st j).1 (cavACC st j).2 with
      | none => ⟨UpdStatus.numericalError, st, none, none⟩
      | some r4 =>
        match msgLoop st.margPi st.margBeta st.maxPi piMin r4.1 r4.2.1 row dampFact with
        | Except.error s =>
          ⟨s, st,
           if s = UpdStatus.cavCondSkipped ∧ wantEffDamp then some 1 else none,
           none⟩
        | Except.ok dm =>
          match clampStage st piMin j row dm.2 r4.2.2.1 (cavACC st j).1 dm.1 with
          | Except.error s =>
            ⟨s, st,
             if s = UpdStatus.cavCondSkipped ∧ wantEffDamp then some 1 else none,
             none⟩
          | Except.ok damp2 =>
            if (row.zip dm.2).any
                (fun p => decide (newMPi st.margPi damp2 p < thres2)) then
              ⟨UpdStatus.marginalsInvalid, st,
               if wantEffDamp then some damp2 else none, none⟩
            else
              successOut st j damp2 row dm.2 wantDelta wantEffDamp

/-- FactorizedEPDriver::sequentialUpdate (lines 270-481): the damping factor
is validated on entry (dampFact outside [0,1) throws
InvalidParameterException, lines 287-288); otherwise the update body runs and
returns one of the five status codes.  The MYASS debug assertion on the
potential argument group (lines 283-286) is a mode-mismatch check that
precedes everything else and does not touch state; it is not modelled. -/
def sequentialUpdate (st : EPSt) (piMin aMin cMin : Rat)
    (oracle : Rat → Rat → Rat → Rat → Option (Rat × Rat × Rat × Rat))
    (j : Nat) (dampFact : Rat) (wantDelta wantEffDamp : Bool) :
    Except EPExc UpdOutput :=
  if dampFact < 0 ∨ 1 ≤ dampFact then Except.error EPExc.invalidParameter
  else Except.ok (updCore st piMin aMin cMin oracle j dampFact wantDelta wantEffDamp)

/-- Decidable equality of Except values, so that concrete runs of
sequentialUpdate can be checked by evaluation. -/
instance {ε α : Type} [DecidableEq ε] [DecidableEq α] :
    DecidableEq (Except ε α) := fun x y =>
  match x, y with
  | Except.error a, Except.error b =>
    if h : a = b then Decidable.isTrue (by rw [h])
    else Decidable.isFalse (fun hh => h (Except.error.inj hh))
  | Except.ok a, Except.ok b =>
    if h : a = b then Decidable.isTrue (by rw [h])
    else Decidable.isFalse (fun hh => h (Except.ok.inj hh))
  | Except.error _, Except.ok _ =>
    Decidable.isFalse (fun hh => Except.noConfusion hh)
  | Except.ok _, Except.error _ =>
    Decidable.isFalse (fun hh => Except.noConfusion hh)

/-! Helper lemmas about list writes, used to relate the commit loop of
lines 461-474 to the marginal vectors it produces. -/

theorem getD_set_self {α : Type} (l : List α) (n : Nat) (v d : α)
    (h : n < l.length) : (l.set n v).getD n d = v := by
  simp [List.getD_eq_getElem?_getD, List.getElem?_set_self, h]

theorem getD_set_ne {α : Type} (l : List α) (m n : Nat) (v d : α)
    (h : m ≠ n) : (l.set m v).getD n d = l.getD n d := by
  simp [List.getD_eq_getElem?_getD, List.getElem?_set_ne, h]

theorem getD_of_length_le {α : Type} (l : List α) (n : Nat) (d : α)
    (h : l.length ≤ n) : l.getD n d = d := by
  simp [List.getD_eq_getElem?_getD, List.getElem?_eq_none, h]

theorem commitFold_getD_of_not_mem (base : List Rat) (vals : List (Nat × Rat))
    (i : Nat) (h : i ∉ vals.map Prod.fst) :
    (commitFold base vals).getD i 0 = base.getD i 0 := by
  induction vals generalizing base with
  | nil => rfl
  | cons p ps ih =>
    simp only [List.map_cons, List.mem_cons, not_or] at h
    simpa [commitFold] using
      (ih (base.set p.1 p.2) h.2).trans (getD_set_ne base p.1 i p.2 0 (Ne.symm h.1))

theorem commitFold_getD_of_mem (base : List Rat) (vals : List (Nat × Rat))
    (p : Nat × Rat) (hmem : p ∈ vals) (hnd : (vals.map Prod.fst).Nodup)
    (hlt : p.1 < base.length) :
    (commitFold base vals).getD p.1 0 = p.2 := by
  induction vals generalizing base with
  | nil => cases hmem
  | cons q qs ih =>
    simp only [List.map_cons, List.nodup_cons] at hnd
    rcases List.mem_cons.mp hmem with rfl | hmem'
    · have hni : p.1 ∉ qs.map Prod.fst := hnd.1
      calc (commitFold (base.set p.1 p.2) qs).getD p.1 0
          = (base.set p.1 p.2).getD p.1 0 :=
            commitFold_getD_of_not_mem _ _ _ hni
        _ = p.2 := getD_set_self base p.1 p.2 0 hlt
    · exact ih (base.set q.1 q.2) hmem' hnd.2 (by simpa using hlt)

/-! Concrete driver states and oracles used to instantiate the theorems below. -/

/-- An oracle whose compMoments always succeeds with (alpha, nu) = (0, 0). -/
def exOracleZero : Rat → Rat → Rat → Rat → Option (Rat × Rat × Rat × Rat) :=
  fun _ _ _ _ => some (0, 0, 0, 0)

/-- A univariate state whose single factor has an invalid cavity:
pi_0 = pi_00 = 1, so pi_0 - pi_00 = 0 falls below piMinThres/2 for
piMinThres = 1. -/
def exSt1 : EPSt := ⟨[[⟨0, 1, 0, 1⟩]], [1], [0], none, none⟩

/-- A univariate state with a healthy cavity (pi_0 = 3, pi_00 = 1) and
nonzero messages pi_00 = beta_00 = 1. -/
def exSt4 : EPSt := ⟨[[⟨0, 1, 1, 1⟩]], [3], [2], none, none⟩

/-- The state exSt4 after a successful undamped update with oracle
(alpha, nu) = (0, 0): both messages drop to 0 and the marginals become the
cavity values. -/
def exSt4out : EPSt := ⟨[[⟨0, 1, 0, 0⟩]], [2], [1], none, none⟩

/-! Claim C10: the damping factor is validated at entry. -/

/-- C10: sequentialUpdate throws InvalidParameterException exactly when the
damping factor lies outside [0,1) (lines 287-288); for dampFact in [0,1) no
exception is raised and a status code is returned instead. -/
theorem dampFact_validation (st : EPSt) (piMin aMin cMin : Rat)
    (oracle : Rat → Rat → Rat → Rat → Option (Rat × Rat × Rat × Rat))
    (j : Nat) (damp : Rat) (wd we : Bool) :
    sequentialUpdate st piMin aMin cMin oracle j damp wd we =
        Except.error EPExc.invalidParameter ↔ (damp < 0 ∨ 1 ≤ damp) := by
  unfold sequentialUpdate
  split_ifs with h <;> simp [h]

/-- C10 instantiated: dampFact = 1 raises the exception. -/
theorem dampFact_validation_applied :
    sequentialUpdate exSt1 1 1 1 exOracleZero 0 1 false false =
      Except.error EPExc.invalidParameter :=
  (dampFact_validation exSt1 1 1 1 exOracleZero 0 1 false false).mpr
    (Or.inr le_rfl)

/-! Claim C1: every failure path leaves the observable state unchanged. -/

/-- The update body either leaves the state untouched or reports success:
every constructor of updCore on a non-success path carries the input state. -/
theorem updCore_state_or_success (st : EPSt) (piMin aMin cMin : Rat)
    (oracle : Rat → Rat → Rat → Rat → Option (Rat × Rat × Rat × Rat))
    (j : Nat) (damp : Rat) (wd we : Bool) :
    (updCore st piMin aMin cMin oracle j damp wd we).st = st ∨
      (updCore st piMin aMin cMin oracle j damp wd we).status =
        UpdStatus.success := by
  unfold updCore
  dsimp only
  repeat' split
  all_goals first | exact Or.inl rfl | exact Or.inr rfl

/-- C1: whenever sequentialUpdate returns a status other than Success, the
factor message parameters, the marginal vectors, the max-value index contents
and the bivariate message and marginal parameters are all unchanged. -/
theorem nonSuccess_state_unchanged (st : EPSt) (piMin aMin cMin : Rat)
    (oracle : Rat → Rat → Rat → Rat → Option (Rat × Rat × Rat × Rat))
    (j : Nat) (damp : Rat) (wd we : Bool) (out : UpdOutput)
    (h : sequentialUpdate st piMin aMin cMin oracle j damp wd we = Except.ok out)
    (hs : out.status ≠ UpdStatus.success) : out.st = st := by
  unfold sequentialUpdate at h
  split_ifs at h
  simp only [Except.ok.injEq] at h
  subst h
  rcases updCore_state_or_success st piMin aMin cMin oracle j damp wd we with
    h' | h'
  · exact h'
  · exact absurd h' hs

/-- C1 instantiated at a CavityInvalid call on exSt1. -/
theorem nonSuccess_state_unchanged_applied :
    (UpdOutput.mk UpdStatus.cavityInvalid exSt1 none none).st = exSt1 :=
  nonSuccess_state_unchanged exSt1 1 1 1 exOracleZero 0 0 false false
    ⟨UpdStatus.cavityInvalid, exSt1, none, none⟩
    (by norm_num [sequentialUpdate, updCore, exSt1, exOracleZero, cavPi])
    (by simp)

/-! Claim C8: the undamped message computation.  The spec states the large-b
branch for |b| at least 1e-6, while the code (line 364) takes it only for
|b| strictly above 1e-6; at |b| = 1e-6 exactly, the two branches apply
different denominator guards (cPi/b^2 - nu against 1e-10 versus
cPi - nu b^2 against 1e-10), so the returned status can differ. -/

/-- Modelled from the spec (step 3 of the algorithm), word for word, with the
branch condition of the claim: |b| at least 1e-6 selects the large-b branch. -/
def specUndamped (b cPi cBeta alpha nu : Rat) : Option (Rat × Rat) :=
  if bThres ≤ |b| then
    let t2 := cPi / b
    let den := t2 / b - nu
    if den < denomThres then none
    else some ((1 / den) * cPi * nu, (1 / den) * (cBeta * nu + t2 * alpha))
  else
    let den := cPi - nu * b ^ 2
    if den < denomThres then none
    else some ((b / den) * b * nu * cPi, (b / den) * (cBeta * b * nu + cPi * alpha))

/-- Modelled from the spec as amended: the same formulas with the strict
branch condition |b| > 1e-6, matching the code. -/
def specUndampedStrict (b cPi cBeta alpha nu : Rat) : Option (Rat × Rat) :=
  if bThres < |b| then
    let t2 := cPi / b
    let den := t2 / b - nu
    if den < denomThres then none
    else some ((1 / den) * cPi * nu, (1 / den) * (cBeta * nu + t2 * alpha))
  else
    let den := cPi - nu * b ^ 2
    if den < denomThres then none
    else some ((b / den) * b * nu * cPi, (b / den) * (cBeta * b * nu + cPi * alpha))

/-- C8 counterexample: at |b| = 1e-6 exactly, with cavity precision 1e-11 and
nu = 0, the code takes the small-b branch and fails its guard
(1e-11 < 1e-10, updNumericalError), while the claim's branching prescribes
the large-b branch whose denominator 1e-11/1e-12 = 10 passes the guard and
yields the message (0, 0). -/
theorem undamped_branch_boundary_cex :
    compUndamped bThres (1 / 100000000000) 0 0 0 ≠
        specUndamped bThres (1 / 100000000000) 0 0 0 ∧
    compUndamped bThres (1 / 100000000000) 0 0 0 = none ∧
    specUndamped bThres (1 / 100000000000) 0 0 0 = some (0, 0) := by
  have habs : |(1 : Rat) / 1000000| = 1 / 1000000 := abs_of_pos (by norm_num)
  norm_num [compUndamped, specUndamped, bThres, denomThres, habs]
  simp

/-- C8 as amended: with the strict branch condition |b| > 1e-6 the code
computes exactly the spec's formulas: for large |b| it returns
NumericalError when t2/b - nu falls below 1e-10 and otherwise the messages
(e cPi nu, e (cBeta nu + t2 alpha)) with e = 1/(t2/b - nu); for small |b| it
returns NumericalError when cPi - nu b^2 falls below 1e-10 and otherwise
(t b nu cPi, t (cBeta b nu + cPi alpha)) with t = b/(cPi - nu b^2). -/
theorem undamped_matches_spec_strict (b cPi cBeta alpha nu : Rat) :
    compUndamped b cPi cBeta alpha nu = specUndampedStrict b cPi cBeta alpha nu := by
  unfold compUndamped specUndampedStrict
  simp only [pow_two, ← mul_assoc]

/-! Claims C2 and C3: the bivariate-precision commit and clamp.  In the
source, sequentialUpdate never writes aP, cP, margA, margC, epMaxA or epMaxC:
the commit loop (lines 459-474) only touches beta, pi, the pi marginals and
the pi max-value service, and the bivariate clamp block (lines 418-436) is
computed from the univariate pi quantities and never consults epMaxC. -/

/-- A bivariate-precision state: one factor over variable 0 with message
(pi, beta) = (1, 0), marginal pi_0 = 3, precision messages a_0 = 1, c_0 = 2,
aggregates a marginal 5 and c marginal 81/20, no max-value services except the
c service holding the entry (k = 0, j = 0, value 4). -/
def exStBi : EPSt :=
  ⟨[[⟨0, 1, 0, 1⟩]], [3], [0], none,
   some ⟨[1], [2], [0], [5], [81/20], none, some [(0, 0, 4)]⟩⟩

/-- An oracle returning alpha = 0, nu = 1/10, hatA = 4, hatC = 0. -/
def exOracleBi : Rat → Rat → Rat → Rat → Option (Rat × Rat × Rat × Rat) :=
  fun _ _ _ _ => some (0, 1/10, 4, 0)

/-- The result state of the exStBi run: the pi message and marginal move,
the whole bivariate part (a and c messages, aggregates, max services) is
bit-identical to its pre-call value. -/
def exStBiOut : EPSt :=
  ⟨[[⟨0, 1, 0, 2/19⟩]], [40/19], [0], none,
   some ⟨[1], [2], [0], [5], [81/20], none, some [(0, 0, 4)]⟩⟩

/-- Modelled from the spec: the selective-damping quantity 1-eta for the c
precision message, using the c aggregate, the c max-value service, cMinThres
and the c message (spec section 4.E step 4, applied to c). -/
def specOneEtaC (bv : BVSt) (cMin : Rat) (idxC : MaxIdx) (j : Nat)
    (hatC cC : Rat) : Rat :=
  min ((bv.margC.getD (bv.kOf.getD j 0) 0 - getMaxValue idxC (bv.kOf.getD j 0)
          - cMin) / (bv.cMsg.getD j 0 - (hatC - cC))) 1

/-- C2, code bug: a successful bivariate update leaves a_j, c_j, the a and c
aggregate marginals and both precision max-value services bit-identical, even
though the oracle returned hatA with hatA - cavity = 3, different from the
stored message a_j = 1; the spec requires the commit step to write the new
precision messages and aggregates. -/
theorem bivar_success_no_prec_commit :
    sequentialUpdate exStBi (1/1000) (1/1000) (1/1000) exOracleBi 0 0 false true =
      Except.ok ⟨UpdStatus.success, exStBiOut, some 0, none⟩ ∧
    exStBiOut.bv = exStBi.bv ∧
    (4 : Rat) - ((5 : Rat) - 1) ≠ (1 : Rat) := by
  refine ⟨?_, rfl, by norm_num⟩
  norm_num [sequentialUpdate, updCore, exStBi, exStBiOut, exOracleBi, cavACC, bvCavityBad, clampStage,
    successOut, cavPi, cavBeta, cavMoments, margMoments, msgLoop, compUndamped,
    bvClamp, newMPi, newMBeta, newEnt, dampPair, commitFold, idxFold, idxUpdate,
    getMaxValue, bThres, denomThres, Except.map]

/-- C3, code bug: in the exStBi run the c precision message decreases
(hatC - cavity = -41/20 below c_j = 2) and the spec's c clamp evaluates to
1 - eta = 49/4050, at most 0.02, so the spec mandates Skipped; the code
ignores the c max-value service entirely and returns Success with effective
damping 0 (for the a clamp it would likewise read the univariate pi
quantities and a position one past the end of the row). -/
theorem bivar_clamp_ignores_c_index :
    (match exStBi.bv with
     | some bv =>
       specOneEtaC bv (1/1000) [(0, 0, 4)] 0 0 ((81:Rat)/20 - 2) ≤ skipThres ∧
       bv.maxC = some [(0, 0, 4)]
     | none => False) ∧
    sequentialUpdate exStBi (1/1000) (1/1000) (1/1000) exOracleBi 0 0 false true =
      Except.ok ⟨UpdStatus.success, exStBiOut, some 0, none⟩ := by
  constructor
  · exact ⟨by norm_num [specOneEtaC, getMaxValue, skipThres, exStBi], rfl⟩
  · norm_num [sequentialUpdate, updCore, exStBi, exStBiOut, exOracleBi, cavACC, bvCavityBad, clampStage,
      successOut, cavPi, cavBeta, cavMoments, margMoments, msgLoop, compUndamped,
      bvClamp, newMPi, newMBeta, newEnt, dampPair, commitFold, idxFold, idxUpdate,
      getMaxValue, bThres, denomThres, Except.map]

/-! Structural lemmas about the update stages, shared by several claims. -/

/-- The selective-damping step only fails with NumericalError or Skipped. -/
theorem selDamp_error_status (margPi : List Rat) (piMin : Rat) (idx : MaxIdx)
    (e : Ent) (prPi damp : Rat) (s : UpdStatus)
    (h : selDamp margPi piMin idx e prPi damp = Except.error s) :
    s = UpdStatus.numericalError ∨ s = UpdStatus.cavCondSkipped := by
  unfold selDamp at h
  dsimp only at h
  repeat' split at h
  all_goals simp_all

/-- The selective-damping step never lowers the damping factor. -/
theorem selDamp_le (margPi : List Rat) (piMin : Rat) (idx : MaxIdx)
    (e : Ent) (prPi damp d : Rat)
    (h : selDamp margPi piMin idx e prPi damp = Except.ok d) : damp ≤ d := by
  unfold selDamp at h
  dsimp only at h
  repeat' split at h
  all_goals try simp_all
  all_goals (rw [← h]; exact le_max_left _ _)

/-- The message loop only fails with NumericalError or Skipped. -/
theorem msgLoop_error_status (margPi margBeta : List Rat)
    (maxPi : Option MaxIdx) (piMin alpha nu : Rat) (es : List Ent)
    (damp : Rat) (s : UpdStatus)
    (h : msgLoop margPi margBeta maxPi piMin alpha nu es damp = Except.error s) :
    s = UpdStatus.numericalError ∨ s = UpdStatus.cavCondSkipped := by
  induction es generalizing damp with
  | nil => simp [msgLoop] at h
  | cons e es ih =>
    unfold msgLoop at h
    cases hcu : compUndamped e.b (cavPi margPi e) (cavBeta margBeta e) alpha nu with
    | none =>
      rw [hcu] at h
      simp at h
      exact Or.inl h.symm
    | some pr =>
      rw [hcu] at h
      cases maxPi with
      | none =>
        dsimp only at h
        cases hrec : msgLoop margPi margBeta none piMin alpha nu es damp with
        | error s2 =>
          rw [hrec] at h
          simp [Except.map] at h
          subst h
          exact ih damp hrec
        | ok r => rw [hrec] at h; simp [Except.map] at h
      | some idx =>
        dsimp only at h
        cases hsd : selDamp margPi piMin idx e pr.1 damp with
        | error s2 =>
          rw [hsd] at h
          simp at h
          subst h
          exact selDamp_error_status margPi piMin idx e pr.1 damp _ hsd
        | ok damp2 =>
          rw [hsd] at h
          dsimp only at h
          cases hrec : msgLoop margPi margBeta (some idx) piMin alpha nu es damp2 with
          | error s2 =>
            rw [hrec] at h
            simp [Except.map] at h
            subst h
            exact ih damp2 hrec
          | ok r => rw [hrec] at h; simp [Except.map] at h

/-- On success, the message loop returns one message pair per row position. -/
theorem msgLoop_length (margPi margBeta : List Rat) (maxPi : Option MaxIdx)
    (piMin alpha nu : Rat) (es : List Ent) (damp : Rat)
    (dm : Rat × List (Rat × Rat))
    (h : msgLoop margPi margBeta maxPi piMin alpha nu es damp = Except.ok dm) :
    dm.2.length = es.length := by
  induction es generalizing damp dm with
  | nil =>
    simp [msgLoop] at h
    subst h
    rfl
  | cons e es ih =>
    unfold msgLoop at h
    cases hcu : compUndamped e.b (cavPi margPi e) (cavBeta margBeta e) alpha nu with
    | none => rw [hcu] at h; simp at h
    | some pr =>
      rw [hcu] at h
      cases maxPi with
      | none =>
        dsimp only at h
        cases hrec : msgLoop margPi margBeta none piMin alpha nu es damp with
        | error s2 => rw [hrec] at h; simp [Except.map] at h
        | ok r =>
          rw [hrec] at h
          simp [Except.map] at h
          subst h
          simpa using ih damp r hrec
      | some idx =>
        dsimp only at h
        cases hsd : selDamp margPi piMin idx e pr.1 damp with
        | error s2 => rw [hsd] at h; simp at h
        | ok damp2 =>
          rw [hsd] at h
          dsimp only at h
          cases hrec : msgLoop margPi margBeta (some idx) piMin alpha nu es damp2 with
          | error s2 => rw [hrec] at h; simp [Except.map] at h
          | ok r =>
            rw [hrec] at h
            simp [Except.map] at h
            subst h
            simpa using ih damp2 r hrec

/-- On success, the message loop never lowers the damping factor. -/
theorem msgLoop_damp_le (margPi margBeta : List Rat) (maxPi : Option MaxIdx)
    (piMin alpha nu : Rat) (es : List Ent) (damp : Rat)
    (dm : Rat × List (Rat × Rat))
    (h : msgLoop margPi margBeta maxPi piMin alpha nu es damp = Except.ok dm) :
    damp ≤ dm.1 := by
  induction es generalizing damp dm with
  | nil =>
    simp [msgLoop] at h
    subst h
    exact le_rfl
  | cons e es ih =>
    unfold msgLoop at h
    cases hcu : compUndamped e.b (cavPi margPi e) (cavBeta margBeta e) alpha nu with
    | none => rw [hcu] at h; simp at h
    | some pr =>
      rw [hcu] at h
      cases maxPi with
      | none =>
        dsimp only at h
        cases hrec : msgLoop margPi margBeta none piMin alpha nu es damp with
        | error s2 => rw [hrec] at h; simp [Except.map] at h
        | ok r =>
          rw [hrec] at h
          simp [Except.map] at h
          subst h
          simpa using ih damp r hrec
      | some idx =>
        dsimp only at h
        cases hsd : selDamp margPi piMin idx e pr.1 damp with
        | error s2 => rw [hsd] at h; simp at h
        | ok damp2 =>
          rw [hsd] at h
          dsimp only at h
          cases hrec : msgLoop margPi margBeta (some idx) piMin alpha nu es damp2 with
          | error s2 => rw [hrec] at h; simp [Except.map] at h
          | ok r =>
            rw [hrec] at h
            simp [Except.map] at h
            subst h
            exact le_trans (selDamp_le margPi piMin idx e pr.1 damp damp2 hsd)
              (by simpa using ih damp2 r hrec)

/-- The bivariate clamp block only fails with Skipped. -/
theorem bvClamp_error_status (margPi : List Rat) (piMin : Rat) (bv : BVSt)
    (j : Nat) (row : List Ent) (msgs : List (Rat × Rat)) (hatA cA damp : Rat)
    (s : UpdStatus)
    (h : bvClamp margPi piMin bv j row msgs hatA cA damp = Except.error s) :
    s = UpdStatus.cavCondSkipped := by
  unfold bvClamp at h
  dsimp only at h
  cases hma : bv.maxA with
  | none => rw [hma] at h; simp at h
  | some idxA =>
    rw [hma] at h
    dsimp only at h
    repeat' split at h
    all_goals simp_all

/-- The clamp stage only fails with Skipped. -/
theorem clampStage_error_status (st : EPSt) (piMin : Rat) (j : Nat)
    (row : List Ent) (msgs : List (Rat × Rat)) (hatA cA damp : Rat)
    (s : UpdStatus)
    (h : clampStage st piMin j row msgs hatA cA damp = Except.error s) :
    s = UpdStatus.cavCondSkipped := by
  unfold clampStage at h
  cases hbv : st.bv with
  | none => rw [hbv] at h; simp at h
  | some bv =>
    rw [hbv] at h
    exact bvClamp_error_status st.margPi piMin bv j row msgs hatA cA damp s h

/-- The bivariate clamp stage never lowers the damping factor. -/
theorem clampStage_damp_le (st : EPSt) (piMin : Rat) (j : Nat)
    (row : List Ent) (msgs : List (Rat × Rat)) (hatA cA damp d : Rat)
    (h : clampStage st piMin j row msgs hatA cA damp = Except.ok d) :
    damp ≤ d := by
  unfold clampStage at h
  cases hbv : st.bv with
  | none =>
    rw [hbv] at h
    simp at h
    simp [← h]
  | some bv =>
    rw [hbv] at h
    unfold bvClamp at h
    dsimp only at h
    cases hma : bv.maxA with
    | none => rw [hma] at h; simp at h; simp [← h]
    | some idxA =>
      rw [hma] at h
      dsimp only at h
      repeat' split at h
      all_goals try simp_all
      all_goals (rw [← h]; exact le_max_left _ _)

/-- Inversion of a successful update: it passes both cavity checks, the
oracle succeeds, the message loop and the clamp stage succeed, the marginal
checks pass, and the output is the commit of the damped messages. -/
theorem updCore_success_inv (st : EPSt) (piMin aMin cMin : Rat)
    (oracle : Rat → Rat → Rat → Rat → Option (Rat × Rat × Rat × Rat))
    (j : Nat) (damp : Rat) (wd we : Bool) (out : UpdOutput)
    (h : updCore st piMin aMin cMin oracle j damp wd we = out)
    (hs : out.status = UpdStatus.success) :
    ∃ r4 dm damp2,
      oracle (cavMoments st.margPi st.margBeta (st.rows.getD j [])).1
          (cavMoments st.margPi st.margBeta (st.rows.getD j [])).2
          (cavACC st j).1 (cavACC st j).2 = some r4 ∧
      msgLoop st.margPi st.margBeta st.maxPi piMin r4.1 r4.2.1
          (st.rows.getD j []) damp = Except.ok dm ∧
      clampStage st piMin j (st.rows.getD j []) dm.2 r4.2.2.1 (cavACC st j).1
          dm.1 = Except.ok damp2 ∧
      out = successOut st j damp2 (st.rows.getD j []) dm.2 wd we := by
  unfold updCore at h
  dsimp only at h
  split at h
  · subst h; simp at hs
  split at h
  · subst h; simp at hs
  split at h
  · subst h; simp at hs
  rename_i r4 hor
  split at h
  · subst h
    rename_i s hml
    rcases msgLoop_error_status _ _ _ _ _ _ _ _ _ hml with h' | h' <;>
      simp [h'] at hs
  rename_i dm hml
  split at h
  · subst h
    rename_i s hcl
    have := clampStage_error_status _ _ _ _ _ _ _ _ _ hcl
    simp [this] at hs
  rename_i damp2 hcl
  split at h
  · subst h; simp at hs
  exact ⟨r4, dm, damp2, hor, hml, hcl, h.symm⟩

/-! Claim C4: behaviour under the trivial moment-matching result
(alpha, nu) = (0, 0).  The undamped message formulas of lines 377-378 and
385-386 then evaluate to zero, not to the previous message, so the committed
message is dampFact times the old one rather than the old one itself. -/

/-- With (alpha, nu) = (0, 0), whenever the undamped update succeeds it
returns the zero message. -/
theorem compUndamped_zero (b cPi cBeta : Rat) (pr : Rat × Rat)
    (h : compUndamped b cPi cBeta 0 0 = some pr) : pr = (0, 0) := by
  unfold compUndamped at h
  dsimp only at h
  split_ifs at h <;> simp_all

/-- With (alpha, nu) = (0, 0), a successful message loop returns all-zero
undamped messages. -/
theorem msgLoop_zero (margPi margBeta : List Rat) (maxPi : Option MaxIdx)
    (piMin : Rat) (es : List Ent) (damp : Rat) (dm : Rat × List (Rat × Rat))
    (h : msgLoop margPi margBeta maxPi piMin 0 0 es damp = Except.ok dm) :
    dm.2 = List.replicate es.length (0, 0) := by
  induction es generalizing damp dm with
  | nil =>
    simp [msgLoop] at h
    subst h
    rfl
  | cons e es ih =>
    unfold msgLoop at h
    cases hcu : compUndamped e.b (cavPi margPi e) (cavBeta margBeta e) 0 0 with
    | none => rw [hcu] at h; simp at h
    | some pr =>
      rw [hcu] at h
      have hpr : pr = (0, 0) := compUndamped_zero _ _ _ _ hcu
      cases maxPi with
      | none =>
        dsimp only at h
        cases hrec : msgLoop margPi margBeta none piMin 0 0 es damp with
        | error s2 => rw [hrec] at h; simp [Except.map] at h
        | ok r =>
          rw [hrec] at h
          simp [Except.map] at h
          subst h
          simp [hpr, List.replicate_succ, ih damp r hrec]
      | some idx =>
        dsimp only at h
        cases hsd : selDamp margPi piMin idx e pr.1 damp with
        | error s2 => rw [hsd] at h; simp at h
        | ok damp2 =>
          rw [hsd] at h
          dsimp only at h
          cases hrec : msgLoop margPi margBeta (some idx) piMin 0 0 es damp2 with
          | error s2 => rw [hrec] at h; simp [Except.map] at h
          | ok r =>
            rw [hrec] at h
            simp [Except.map] at h
            subst h
            simp [hpr, List.replicate_succ, ih damp2 r hrec]

/-- Zipping a list with the replicate of its length pairs every element with
the replicated value. -/
theorem zip_replicate_self {α β : Type} (l : List α) (x : β) :
    l.zip (List.replicate l.length x) = l.map (fun a => (a, x)) := by
  induction l with
  | nil => rfl
  | cons a l ih => simp [List.replicate_succ, ih]

/-- C4 counterexample: on exSt4 (message (pi, beta) = (1, 1)) with an oracle
returning (alpha, nu) = (0, 0) and no damping, the call returns Success and
the message parameters change from (1, 1) to (0, 0): they are not
bit-identical to their pre-call values. -/
theorem trivial_moments_change_messages :
    sequentialUpdate exSt4 (1/1000) 1 1 exOracleZero 0 0 false false =
      Except.ok ⟨UpdStatus.success, exSt4out, none, none⟩ ∧
    exSt4out.rows ≠ exSt4.rows := by
  constructor
  · norm_num [sequentialUpdate, updCore, cavACC, bvCavityBad, clampStage,
      successOut, exSt4, exSt4out, exOracleZero, cavPi, cavBeta, cavMoments,
      msgLoop, compUndamped, newMPi, newMBeta, newEnt, dampPair, commitFold,
      bThres, denomThres, Except.map]
  · simp [exSt4, exSt4out]

/-- C4 as amended: if the oracle returns (alpha, nu) = (0, 0), the undamped
messages are all zero, so on Success every committed message of factor j is
the effective damping factor times the old message
(pi = d pi_old, beta = d beta_old); the bivariate message parameters are
untouched.  Messages are bit-identical to their pre-call values only when
this scaling fixes them (in particular whenever they are already zero). -/
theorem trivial_moments_scale_messages (st : EPSt) (piMin aMin cMin : Rat)
    (oracle : Rat → Rat → Rat → Rat → Option (Rat × Rat × Rat × Rat))
    (j : Nat) (damp d : Rat) (wd : Bool) (out : UpdOutput)
    (h0 : ∀ x y z w r, oracle x y z w = some r → r.1 = 0 ∧ r.2.1 = 0)
    (h : sequentialUpdate st piMin aMin cMin oracle j damp wd true =
      Except.ok out)
    (hs : out.status = UpdStatus.success)
    (hd : out.effDamp = some d) :
    out.st.rows.getD j [] =
      (st.rows.getD j []).map
        (fun e => { e with pi := d * e.pi, beta := d * e.beta }) ∧
    out.st.bv = st.bv := by
  unfold sequentialUpdate at h
  split_ifs at h with hv
  simp only [Except.ok.injEq] at h
  obtain ⟨r4, dm, damp2, hor, hml, hcl, hout⟩ :=
    updCore_success_inv st piMin aMin cMin oracle j damp wd true out h hs
  obtain ⟨ha0, hn0⟩ := h0 _ _ _ _ _ hor
  rw [ha0, hn0] at hml
  have hmsgs : dm.2 = List.replicate (st.rows.getD j []).length (0, 0) :=
    msgLoop_zero st.margPi st.margBeta st.maxPi piMin _ _ _ hml
  -- the effective damping factor is nonnegative
  have hdampnn : 0 ≤ damp := by
    rcases not_or.mp hv with ⟨h1, _⟩
    exact le_of_not_lt h1
  have hd2nn : 0 ≤ damp2 :=
    le_trans (le_trans hdampnn (msgLoop_damp_le _ _ _ _ _ _ _ _ _ hml))
      (clampStage_damp_le _ _ _ _ _ _ _ _ _ hcl)
  have hdval : damp2 = d := by
    rw [hout] at hd
    simpa [successOut] using hd
  subst hdval
  constructor
  · rw [hout]
    simp only [successOut, hmsgs, zip_replicate_self, List.map_map]
    rcases lt_or_ge j st.rows.length with hlt | hge
    · rw [getD_set_self _ _ _ _ hlt]
      refine List.map_congr_left (fun e _ => ?_)
      simp only [Function.comp, newEnt, dampPair]
      split_ifs with hpos
      · simp
      · have hzero : damp2 = 0 := le_antisymm (not_lt.mp hpos) hd2nn
        simp [hzero]
    · rw [List.set_eq_of_length_le hge, getD_of_length_le _ _ _ hge]
      simp
  · rw [hout]
    simp [successOut]

/-- C4 amended theorem instantiated on exSt4 with effDamp requested: the
resulting row is the old row scaled by the effective damping factor 0. -/
theorem trivial_moments_scale_messages_applied :
    exSt4out.rows.getD 0 [] =
      (exSt4.rows.getD 0 []).map
        (fun e => { e with pi := (0:Rat) * e.pi, beta := (0:Rat) * e.beta }) :=
  (trivial_moments_scale_messages exSt4 (1/1000) 1 1 exOracleZero 0 0 0 false
    ⟨UpdStatus.success, exSt4out, some 0, none⟩
    (fun x y z w r hr => by
      simp only [exOracleZero, Option.some.injEq] at hr
      rw [← hr]
      exact ⟨rfl, rfl⟩)
    (by norm_num [sequentialUpdate, updCore, cavACC, bvCavityBad, clampStage,
      successOut, exSt4, exSt4out, exOracleZero, cavPi, cavBeta, cavMoments,
      msgLoop, compUndamped, newMPi, newMBeta, newEnt, dampPair, commitFold,
      bThres, denomThres, Except.map])
    rfl rfl).1

/-! Claim C5: the selective-damping clamp for the pi messages
(lines 390-416). -/

/-- On success, the selective-damping step returns max(damp, 1 - (1-eta))
when the message precision decreases and damp unchanged otherwise. -/
theorem selDamp_ok_val (margPi : List Rat) (piMin : Rat) (idx : MaxIdx)
    (e : Ent) (prPi damp d : Rat)
    (h : selDamp margPi piMin idx e prPi damp = Except.ok d) :
    d = if prPi < e.pi then max damp (1 - oneEtaPi margPi piMin idx e prPi)
        else damp := by
  unfold selDamp at h
  dsimp only at h
  split_ifs at h ⊢ <;> simp_all

/-- On success of the message loop with the max-pi service present, the
returned damping factor is the fold of max(acc, 1 - (1-eta)) over exactly the
positions whose undamped message precision decreases, started at the caller
damping factor. -/
theorem msgLoop_damp_foldl (margPi margBeta : List Rat) (idx : MaxIdx)
    (piMin alpha nu : Rat) (es : List Ent) (damp : Rat)
    (dm : Rat × List (Rat × Rat))
    (h : msgLoop margPi margBeta (some idx) piMin alpha nu es damp =
      Except.ok dm) :
    dm.1 = (es.zip dm.2).foldl
      (fun acc p =>
        if p.2.1 < p.1.pi then
          max acc (1 - oneEtaPi margPi piMin idx p.1 p.2.1)
        else acc) damp := by
  induction es generalizing damp dm with
  | nil =>
    simp [msgLoop] at h
    subst h
    rfl
  | cons e es ih =>
    unfold msgLoop at h
    cases hcu : compUndamped e.b (cavPi margPi e) (cavBeta margBeta e) alpha nu with
    | none => rw [hcu] at h; simp at h
    | some pr =>
      rw [hcu] at h
      dsimp only at h
      cases hsd : selDamp margPi piMin idx e pr.1 damp with
      | error s2 => rw [hsd] at h; simp at h
      | ok damp2 =>
        rw [hsd] at h
        dsimp only at h
        cases hrec : msgLoop margPi margBeta (some idx) piMin alpha nu es damp2 with
        | error s2 => rw [hrec] at h; simp [Except.map] at h
        | ok r =>
          rw [hrec] at h
          simp [Except.map] at h
          subst h
          have hstep := selDamp_ok_val margPi piMin idx e pr.1 damp damp2 hsd
          simp only [List.zip_cons_cons, List.foldl_cons]
          rw [← hstep]
          simpa using ih damp2 r hrec

/-- On a Skipped return with the effDamp out-pointer supplied, the pointer is
set to 1.0 (lines 403 and 431). -/
theorem updCore_skipped_eff (st : EPSt) (piMin aMin cMin : Rat)
    (oracle : Rat → Rat → Rat → Rat → Option (Rat × Rat × Rat × Rat))
    (j : Nat) (damp : Rat) (wd : Bool) (out : UpdOutput)
    (h : updCore st piMin aMin cMin oracle j damp wd true = out)
    (hs : out.status = UpdStatus.cavCondSkipped) : out.effDamp = some 1 := by
  unfold updCore at h
  dsimp only at h
  split at h
  · subst h; simp at hs
  split at h
  · subst h; simp at hs
  split at h
  · subst h; simp at hs
  rename_i r4 hor
  split at h
  · subst h
    rename_i s hml
    simp only at hs
    simp [hs]
  rename_i dm hml
  split at h
  · subst h
    rename_i s hcl
    simp only at hs
    simp [hs]
  rename_i damp2 hcl
  split at h
  · subst h; simp at hs
  subst h
  simp [successOut] at hs

/-- C5: with a max-pi service present and the undamped precision decreasing
at a position (prPi below pi_ji): a nonpositive kappa_i yields
NumericalError; 1-eta at most 0.02 yields Skipped; otherwise the damping
factor becomes max(damp, 1 - (1-eta)), with
1-eta = min((pi_i - kappa_i - piMinThres)/(pi_ji - prPi), 1); across the
whole row the result is the maximum over all decreasing positions; and a
Skipped call reports d_eff = 1.0 when the pointer is supplied. -/
theorem selective_damping_behavior :
    (∀ (margPi : List Rat) (piMin : Rat) (idx : MaxIdx) (e : Ent)
       (prPi damp : Rat), prPi < e.pi →
      ((getMaxValue idx e.i ≤ 0 →
         selDamp margPi piMin idx e prPi damp =
           Except.error UpdStatus.numericalError) ∧
       (0 < getMaxValue idx e.i →
         oneEtaPi margPi piMin idx e prPi ≤ skipThres →
         selDamp margPi piMin idx e prPi damp =
           Except.error UpdStatus.cavCondSkipped) ∧
       (0 < getMaxValue idx e.i →
         skipThres < oneEtaPi margPi piMin idx e prPi →
         selDamp margPi piMin idx e prPi damp =
           Except.ok (max damp (1 - oneEtaPi margPi piMin idx e prPi))))) ∧
    (∀ (margPi margBeta : List Rat) (idx : MaxIdx) (piMin alpha nu : Rat)
       (es : List Ent) (damp : Rat) (dm : Rat × List (Rat × Rat)),
      msgLoop margPi margBeta (some idx) piMin alpha nu es damp =
        Except.ok dm →
      dm.1 = (es.zip dm.2).foldl
        (fun acc p =>
          if p.2.1 < p.1.pi then
            max acc (1 - oneEtaPi margPi piMin idx p.1 p.2.1)
          else acc) damp) ∧
    (∀ (st : EPSt) (piMin aMin cMin : Rat)
       (oracle : Rat → Rat → Rat → Rat → Option (Rat × Rat × Rat × Rat))
       (j : Nat) (damp : Rat) (wd : Bool) (out : UpdOutput),
      sequentialUpdate st piMin aMin cMin oracle j damp wd true =
        Except.ok out →
      out.status = UpdStatus.cavCondSkipped → out.effDamp = some 1) := by
  refine ⟨?_, ?_, ?_⟩
  · intro margPi piMin idx e prPi damp hdec
    refine ⟨?_, ?_, ?_⟩
    · intro hk
      unfold selDamp
      dsimp only
      rw [if_pos hdec, if_pos hk]
    · intro hk he
      unfold selDamp
      dsimp only
      rw [if_pos hdec, if_neg (not_le.mpr hk), if_pos he]
    · intro hk he
      unfold selDamp
      dsimp only
      rw [if_pos hdec, if_neg (not_le.mpr hk), if_neg (not_le.mpr he)]
  · intro margPi margBeta idx piMin alpha nu es damp dm h
    exact msgLoop_damp_foldl margPi margBeta idx piMin alpha nu es damp dm h
  · intro st piMin aMin cMin oracle j damp wd out h hs
    unfold sequentialUpdate at h
    split_ifs at h
    simp only [Except.ok.injEq] at h
    exact updCore_skipped_eff st piMin aMin cMin oracle j damp wd out h hs

/-- C5 instantiated: with an empty max-pi index (kappa = 0) and a decreasing
message precision the step reports NumericalError. -/
theorem selective_damping_behavior_applied :
    selDamp [1] 1 [] ⟨0, 1, 0, 1⟩ 0 0 =
      Except.error UpdStatus.numericalError :=
  ((selective_damping_behavior.1 [1] 1 [] ⟨0, 1, 0, 1⟩ 0 0 (by norm_num)).1)
    (by norm_num [getMaxValue])

/-! Claim C7: the exact conditions for the CavityInvalid status
(lines 309-329). -/

/-- The cavity failure condition of lines 314-315 and 324-329: some position
has cavity precision pi_i - pi_ji below piMinThres/2, or, in bivariate mode,
a_{k(j)} - a_j falls below aMinThres/2 or c_{k(j)} - c_j below cMinThres/2. -/
def badCavity (st : EPSt) (piMin aMin cMin : Rat) (j : Nat) : Prop :=
  (∃ e ∈ st.rows.getD j [], cavPi st.margPi e < piMin / 2) ∨
  (∃ bv, st.bv = some bv ∧
    (bv.margA.getD (bv.kOf.getD j 0) 0 - bv.aMsg.getD j 0 < aMin / 2 ∨
     bv.margC.getD (bv.kOf.getD j 0) 0 - bv.cMsg.getD j 0 < cMin / 2))

/-- The cavity failure condition coincides with the two boolean checks
performed by the update body. -/
theorem badCavity_iff_checks (st : EPSt) (piMin aMin cMin : Rat) (j : Nat) :
    badCavity st piMin aMin cMin j ↔
      ((st.rows.getD j []).any
        (fun e => decide (cavPi st.margPi e < piMin / 2)) = true ∨
       bvCavityBad st aMin cMin j = true) := by
  unfold badCavity bvCavityBad
  constructor
  · rintro (⟨e, he, hlt⟩ | ⟨bv, hbv, hor⟩)
    · exact Or.inl (List.any_eq_true.mpr ⟨e, he, by simpa using hlt⟩)
    · refine Or.inr ?_
      rw [hbv]
      unfold cavACC
      rw [hbv]
      simpa using hor
  · rintro (hb | hb)
    · obtain ⟨e, he, hlt⟩ := List.any_eq_true.mp hb
      exact Or.inl ⟨e, he, by simpa using hlt⟩
    · cases hbv : st.bv with
      | none => rw [hbv] at hb; simp at hb
      | some bv =>
        rw [hbv] at hb
        unfold cavACC at hb
        rw [hbv] at hb
        refine Or.inr ⟨bv, rfl, ?_⟩
        simpa using hb

/-- When a cavity check fails, the update body returns CavityInvalid with the
state unchanged and neither out-pointer written, whatever the oracle does. -/
theorem updCore_cavity_bad (st : EPSt) (piMin aMin cMin : Rat)
    (oracle : Rat → Rat → Rat → Rat → Option (Rat × Rat × Rat × Rat))
    (j : Nat) (damp : Rat) (wd we : Bool)
    (hbad : (st.rows.getD j []).any
        (fun e => decide (cavPi st.margPi e < piMin / 2)) = true ∨
      bvCavityBad st aMin cMin j = true) :
    updCore st piMin aMin cMin oracle j damp wd we =
      ⟨UpdStatus.cavityInvalid, st, none, none⟩ := by
  unfold updCore
  dsimp only
  rcases hbad with hb | hb
  · rw [if_pos hb]
  · by_cases h1 : (st.rows.getD j []).any
        (fun e => decide (cavPi st.margPi e < piMin / 2)) = true
    · rw [if_pos h1]
    · rw [if_neg h1, if_pos hb]

/-- When both cavity checks pass, no later stage returns CavityInvalid. -/
theorem updCore_not_cavity (st : EPSt) (piMin aMin cMin : Rat)
    (oracle : Rat → Rat → Rat → Rat → Option (Rat × Rat × Rat × Rat))
    (j : Nat) (damp : Rat) (wd we : Bool)
    (hb1 : ¬ ((st.rows.getD j []).any
        (fun e => decide (cavPi st.margPi e < piMin / 2)) = true))
    (hb2 : ¬ (bvCavityBad st aMin cMin j = true)) :
    (updCore st piMin aMin cMin oracle j damp wd we).status ≠
      UpdStatus.cavityInvalid := by
  unfold updCore
  dsimp only
  rw [if_neg hb1, if_neg hb2]
  split
  · simp
  rename_i r4 hor
  split
  · rename_i s hml
    rcases msgLoop_error_status _ _ _ _ _ _ _ _ _ hml with h' | h' <;> simp [h']
  rename_i dm hml
  split
  · rename_i s hcl
    have := clampStage_error_status _ _ _ _ _ _ _ _ _ hcl
    simp [this]
  rename_i damp2 hcl
  split
  · simp
  · simp [successOut]

/-- C7: sequentialUpdate returns CavityInvalid, without consulting the oracle
and with the state unchanged and no out-pointer written, exactly when some
cavity quantity falls below its half-threshold; when all cavity quantities
meet their thresholds the call never returns CavityInvalid. -/
theorem cavityInvalid_characterization (st : EPSt) (piMin aMin cMin : Rat)
    (oracle : Rat → Rat → Rat → Rat → Option (Rat × Rat × Rat × Rat))
    (j : Nat) (damp : Rat) (wd we : Bool) (out : UpdOutput)
    (h : sequentialUpdate st piMin aMin cMin oracle j damp wd we =
      Except.ok out) :
    (out.status = UpdStatus.cavityInvalid ↔ badCavity st piMin aMin cMin j) ∧
    (out.status = UpdStatus.cavityInvalid →
      out = ⟨UpdStatus.cavityInvalid, st, none, none⟩) ∧
    (badCavity st piMin aMin cMin j →
      ∀ oracle2 : Rat → Rat → Rat → Rat → Option (Rat × Rat × Rat × Rat),
        sequentialUpdate st piMin aMin cMin oracle2 j damp wd we =
          Except.ok out) := by
  unfold sequentialUpdate at h
  split_ifs at h with hv
  simp only [Except.ok.injEq] at h
  by_cases hbad : badCavity st piMin aMin cMin j
  · have hb' := (badCavity_iff_checks st piMin aMin cMin j).mp hbad
    have hout : out = ⟨UpdStatus.cavityInvalid, st, none, none⟩ := by
      rw [← h, updCore_cavity_bad st piMin aMin cMin oracle j damp wd we hb']
    refine ⟨⟨fun _ => hbad, fun _ => by rw [hout]⟩, fun _ => hout, ?_⟩
    intro _ oracle2
    unfold sequentialUpdate
    rw [if_neg hv]
    rw [updCore_cavity_bad st piMin aMin cMin oracle2 j damp wd we hb', hout]
  · have hb' : ¬ (((st.rows.getD j []).any
        (fun e => decide (cavPi st.margPi e < piMin / 2)) = true) ∨
        bvCavityBad st aMin cMin j = true) :=
      fun hc => hbad ((badCavity_iff_checks st piMin aMin cMin j).mpr hc)
    obtain ⟨hb1, hb2⟩ := not_or.mp hb'
    have hne : out.status ≠ UpdStatus.cavityInvalid := by
      rw [← h]
      exact updCore_not_cavity st piMin aMin cMin oracle j damp wd we hb1 hb2
    exact ⟨⟨fun hc => absurd hc hne, fun hc => absurd hc hbad⟩,
           fun hc => absurd hc hne, fun hc => absurd hc hbad⟩

/-- C7 instantiated on exSt1 (cavity 0 below 1/2): the call does return
CavityInvalid, so the cavity failure condition holds. -/
theorem cavityInvalid_characterization_applied :
    badCavity exSt1 1 1 1 0 :=
  ((cavityInvalid_characterization exSt1 1 1 1 exOracleZero 0 0 false false
      ⟨UpdStatus.cavityInvalid, exSt1, none, none⟩
      (by norm_num [sequentialUpdate, updCore, exSt1, exOracleZero,
        cavPi])).1).mp rfl

/-! Claim C6: marginal-sum conservation across a successful update. -/

/-- The contribution of one factor row to the message sum of variable i,
for a message field f (pi or beta). -/
def rowFieldSum (f : Ent → Rat) (r : List Ent) (i : Nat) : Rat :=
  ((r.filter (fun e => e.i == i)).map f).sum

/-- The sum of message parameters over all factors touching variable i. -/
def fieldSum (f : Ent → Rat) (rows : List (List Ent)) (i : Nat) : Rat :=
  (rows.map (fun r => rowFieldSum f r i)).sum

/-- A row with no entry for variable i contributes nothing. -/
theorem rowFieldSum_zero (f : Ent → Rat) (r : List Ent) (i : Nat)
    (h : ∀ e ∈ r, e.i ≠ i) : rowFieldSum f r i = 0 := by
  unfold rowFieldSum
  have : r.filter (fun e => e.i == i) = [] :=
    List.filter_eq_nil_iff.mpr (fun e he => by simpa using h e he)
  simp [this]

/-- A row with pairwise distinct variable indices containing an entry e for
variable i contributes exactly f e. -/
theorem rowFieldSum_single (f : Ent → Rat) (r : List Ent) (i : Nat)
    (hnd : (r.map Ent.i).Nodup) (e : Ent) (he : e ∈ r) (hei : e.i = i) :
    rowFieldSum f r i = f e := by
  induction r with
  | nil => cases he
  | cons a r ih =>
    simp only [List.map_cons, List.nodup_cons] at hnd
    rcases List.mem_cons.mp he with rfl | he'
    · have hfz : rowFieldSum f r i = 0 := by
        refine rowFieldSum_zero f r i (fun x hx hxi => hnd.1 ?_)
        rw [← hei, ← hxi] at *
        exact hxi ▸ List.mem_map_of_mem Ent.i hx
      unfold rowFieldSum at *
      simp only [List.filter_cons, hei, beq_self_eq_true, if_true]
      simp only [List.map_cons, List.sum_cons]
      rw [hfz]
      ring
    · have hai : a.i ≠ i := by
        intro hc
        exact hnd.1 (hc.symm ▸ hei ▸ List.mem_map_of_mem Ent.i he')
      unfold rowFieldSum at *
      simp only [List.filter_cons]
      rw [if_neg (by simpa using hai)]
      exact ih hnd.2 he'

/-- Replacing row j changes each variable sum by the difference of the old
and new row contributions. -/
theorem fieldSum_set (f : Ent → Rat) (rows : List (List Ent)) (j : Nat)
    (r' : List Ent) (i : Nat) (hj : j < rows.length) :
    fieldSum f (rows.set j r') i =
      fieldSum f rows i - rowFieldSum f (rows.getD j []) i +
        rowFieldSum f r' i := by
  induction rows generalizing j with
  | nil => simp at hj
  | cons r rs ih =>
    cases j with
    | zero =>
      show fieldSum f (r' :: rs) i = _
      simp only [fieldSum, List.map_cons, List.sum_cons]
      show _ = rowFieldSum f r i + _ - rowFieldSum f r i + _
      ring
    | succ j =>
      show fieldSum f (r :: rs.set j r') i = _
      simp only [fieldSum, List.map_cons, List.sum_cons]
      have hj' : j < rs.length := by simpa using hj
      have := ih j hj'
      simp only [fieldSum] at this
      rw [this]
      show _ = rowFieldSum f r i + _ - rowFieldSum f (rs.getD j []) i + _
      ring

/-- Every element of a list is paired with some partner in a zip with a list
of the same length. -/
theorem zip_mem_of_mem {α β : Type} (l1 : List α) (l2 : List β)
    (hlen : l1.length = l2.length) (a : α) (ha : a ∈ l1) :
    ∃ b, (a, b) ∈ l1.zip l2 := by
  induction l1 generalizing l2 with
  | nil => cases ha
  | cons x l ih =>
    cases l2 with
    | nil => simp at hlen
    | cons y l2 =>
      rcases List.mem_cons.mp ha with rfl | ha'
      · exact ⟨y, List.mem_cons_self _ _⟩
      · obtain ⟨b, hb⟩ := ih l2 (by simpa using hlen) ha'
        exact ⟨b, List.mem_cons_of_mem _ hb⟩

/-- Commit of one factor row preserves a marginal-sum invariant: writing, for
each position, cavity plus damped message into the marginal and the damped
message into the row keeps the marginal equal to the sum of messages.
Stated generically in the message field f (pi or beta), its damped value fd
per position, and the cavity value cv with cv e = marg[e.i] - f e. -/
theorem commit_sum_aux (marg : List Rat) (rows : List (List Ent)) (j : Nat)
    (damp2 : Rat) (msgs : List (Rat × Rat))
    (hlen : msgs.length = (rows.getD j []).length)
    (hnd : ((rows.getD j []).map Ent.i).Nodup)
    (hb : ∀ e ∈ rows.getD j [], e.i < marg.length)
    (f : Ent → Rat) (fd : (Ent × (Rat × Rat)) → Rat)
    (cv : Ent → Rat)
    (hcv : ∀ e, cv e = marg.getD e.i 0 - f e)
    (hfe : ∀ p, f (newEnt damp2 p) = fd p)
    (i : Nat)
    (hsum : marg.getD i 0 = fieldSum f rows i) :
    (commitFold marg (((rows.getD j []).zip msgs).map
        (fun p => (p.1.i, cv p.1 + fd p)))).getD i 0 =
      fieldSum f (rows.set j (((rows.getD j []).zip msgs).map (newEnt damp2))) i := by
  set row := rows.getD j [] with hrow
  set L := row.zip msgs with hL
  have hLfst : L.map Prod.fst = row :=
    List.map_fst_zip row msgs (le_of_eq hlen.symm)
  have hidx : L.map (fun p => p.1.i) = row.map Ent.i := by
    rw [show (fun p : Ent × (Rat × Rat) => p.1.i) = Ent.i ∘ Prod.fst from rfl,
      ← List.map_map, hLfst]
  have hkeys : (L.map (fun p => (p.1.i, cv p.1 + fd p))).map Prod.fst =
      row.map Ent.i := by
    rw [List.map_map]
    exact hidx
  have hNRidx : (L.map (newEnt damp2)).map Ent.i = row.map Ent.i := by
    rw [List.map_map]
    exact hidx
  by_cases hex : ∃ e ∈ row, e.i = i
  · obtain ⟨e, he, hei⟩ := hex
    have hjlt : j < rows.length := by
      by_contra hge
      have hnil : row = [] := by
        rw [hrow]
        exact getD_of_length_le _ _ _ (le_of_not_lt hge)
      rw [hnil] at he
      cases he
    obtain ⟨pr, hpr⟩ := zip_mem_of_mem row msgs hlen.symm e he
    rw [← hL] at hpr
    have hmarg : (commitFold marg (L.map (fun p => (p.1.i, cv p.1 + fd p)))).getD i 0 =
        cv e + fd (e, pr) := by
      have hmem : ((i, cv e + fd (e, pr)) : Nat × Rat) ∈
          L.map (fun p => (p.1.i, cv p.1 + fd p)) := by
        have := List.mem_map_of_mem (fun p : Ent × (Rat × Rat) =>
          (p.1.i, cv p.1 + fd p)) hpr
        simpa [hei] using this
      exact commitFold_getD_of_mem marg _ _ hmem (hkeys ▸ hnd)
        (by simpa using hei ▸ hb e he)
    have hrowsum : rowFieldSum f row i = f e :=
      rowFieldSum_single f row i hnd e he hei
    have hnewsum : rowFieldSum f (L.map (newEnt damp2)) i = fd (e, pr) := by
      have := rowFieldSum_single f (L.map (newEnt damp2)) i (by rw [hNRidx]; exact hnd)
        (newEnt damp2 (e, pr)) (List.mem_map_of_mem _ hpr)
        (by simp [newEnt, hei])
      rw [this, hfe]
    rw [hmarg, fieldSum_set f rows j _ i hjlt, ← hrow, hrowsum, hnewsum,
      hcv e, hei, hsum]
  · push_neg at hex
    have hmarg : (commitFold marg (L.map (fun p => (p.1.i, cv p.1 + fd p)))).getD i 0 =
        marg.getD i 0 := by
      refine commitFold_getD_of_not_mem marg _ i ?_
      rw [hkeys]
      intro hc
      obtain ⟨e, he, hei⟩ := List.mem_map.mp hc
      exact hex e he hei
    have hnew0 : rowFieldSum f (L.map (newEnt damp2)) i = 0 := by
      refine rowFieldSum_zero f _ i (fun u hu => ?_)
      obtain ⟨p, hp, hpe⟩ := List.mem_map.mp hu
      have hp1 : p.1 ∈ row := by
        rw [← hLfst]
        exact List.mem_map_of_mem Prod.fst hp
      rw [← hpe]
      exact hex p.1 hp1
    have hold0 : rowFieldSum f row i = 0 :=
      rowFieldSum_zero f row i hex
    rcases lt_or_ge j rows.length with hjlt | hge
    · rw [hmarg, fieldSum_set f rows j _ i hjlt, ← hrow, hold0, hnew0, hsum]
      ring
    · rw [hmarg, List.set_eq_of_length_le hge, hsum]

/-- C6: if before the call the marginal of variable i equals the sum of the
messages pi_ji over all factors touching i (and likewise for beta), then
after a Success the same equalities hold again: each touched marginal is
committed as cavity plus new damped message while only the entries of factor
j change. -/
theorem success_preserves_marginal_sums (st : EPSt) (piMin aMin cMin : Rat)
    (oracle : Rat → Rat → Rat → Rat → Option (Rat × Rat × Rat × Rat))
    (j : Nat) (damp : Rat) (wd we : Bool) (out : UpdOutput)
    (h : sequentialUpdate st piMin aMin cMin oracle j damp wd we =
      Except.ok out)
    (hs : out.status = UpdStatus.success)
    (hnd : ((st.rows.getD j []).map Ent.i).Nodup)
    (hbp : ∀ e ∈ st.rows.getD j [], e.i < st.margPi.length)
    (hbb : ∀ e ∈ st.rows.getD j [], e.i < st.margBeta.length)
    (i : Nat)
    (hpi : st.margPi.getD i 0 = fieldSum Ent.pi st.rows i)
    (hbe : st.margBeta.getD i 0 = fieldSum Ent.beta st.rows i) :
    out.st.margPi.getD i 0 = fieldSum Ent.pi out.st.rows i ∧
    out.st.margBeta.getD i 0 = fieldSum Ent.beta out.st.rows i := by
  unfold sequentialUpdate at h
  split_ifs at h with hv
  simp only [Except.ok.injEq] at h
  obtain ⟨r4, dm, damp2, hor, hml, hcl, hout⟩ :=
    updCore_success_inv st piMin aMin cMin oracle j damp wd we out h hs
  have hlen : dm.2.length = (st.rows.getD j []).length :=
    msgLoop_length _ _ _ _ _ _ _ _ _ hml
  subst hout
  simp only [successOut]
  constructor
  · exact commit_sum_aux st.margPi st.rows j damp2 dm.2 hlen hnd hbp
      Ent.pi (fun p => (dampPair damp2 p.1 p.2).1) (cavPi st.margPi)
      (fun e => rfl) (fun p => rfl) i hpi
  · exact commit_sum_aux st.margBeta st.rows j damp2 dm.2 hlen hnd hbb
      Ent.beta (fun p => (dampPair damp2 p.1 p.2).2) (cavBeta st.margBeta)
      (fun e => rfl) (fun p => rfl) i hbe

/-- Two factors on variable 0 with messages pi = 1 and 2, beta = 1 and 1,
and marginals satisfying the sum invariant: pi_0 = 3, beta_0 = 2. -/
def exSt6 : EPSt := ⟨[[⟨0, 1, 1, 1⟩], [⟨0, 1, 1, 2⟩]], [3], [2], none, none⟩

/-- exSt6 after a successful update on factor 0 with the zero oracle. -/
def exSt6out : EPSt :=
  ⟨[[⟨0, 1, 0, 0⟩], [⟨0, 1, 1, 2⟩]], [2], [1], none, none⟩

/-- C6 instantiated on exSt6: after the Success the marginal of variable 0
again equals the sum of its messages. -/
theorem success_preserves_marginal_sums_applied :
    exSt6out.margPi.getD 0 0 = fieldSum Ent.pi exSt6out.rows 0 ∧
    exSt6out.margBeta.getD 0 0 = fieldSum Ent.beta exSt6out.rows 0 :=
  success_preserves_marginal_sums exSt6 (1/1000) 1 1 exOracleZero 0 0
    false false ⟨UpdStatus.success, exSt6out, none, none⟩
    (by norm_num [sequentialUpdate, updCore, cavACC, bvCavityBad, clampStage,
      successOut, exSt6, exSt6out, exOracleZero, cavPi, cavBeta, cavMoments,
      msgLoop, compUndamped, newMPi, newMBeta, newEnt, dampPair, commitFold,
      bThres, denomThres, Except.map])
    rfl
    (by simp [exSt6])
    (by intro e he; simp [exSt6] at he; subst he; norm_num [exSt6])
    (by intro e he; simp [exSt6] at he; subst he; norm_num [exSt6])
    0
    (by norm_num [exSt6, fieldSum, rowFieldSum])
    (by norm_num [exSt6, fieldSum, rowFieldSum])

/-! Claim C9: the delta out-value.  The driver state is exact rational
arithmetic; the square roots of line 476 live in the reals, so the reported
value is a real-valued function of the rational moment quadruple returned in
UpdOutput.deltaMoments. -/

/-- MAXRELDIFF(a, b) of line 23: |a - b| / max(|a|, max(|b|, 1e-8)). -/
noncomputable def maxRelDiff (a b : Real) : Real :=
  |a - b| / max |a| (max |b| (1 / 100000000))

/-- The delta written on Success (lines 475-478): mRho and mprRho are passed
through sqrt, then MAXRELDIFF is applied to the means and to the roots and
the maximum of the two is reported. -/
noncomputable def codeDelta (mH mRho mprH mprRho : Rat) : Real :=
  max (maxRelDiff mH mprH)
    (maxRelDiff (Real.sqrt mRho) (Real.sqrt mprRho))

/-- Modelled from the spec: the delta formula of section 4.E step 7, with
plain square roots (no absolute values) in the normalizing maxima. -/
noncomputable def specDelta (mH mRho mprH mprRho : Rat) : Real :=
  max (|(mH : Real) - mprH| /
        max |(mH : Real)| (max |(mprH : Real)| (1 / 100000000)))
    (|Real.sqrt mRho - Real.sqrt mprRho| /
      max (Real.sqrt mRho) (max (Real.sqrt mprRho) (1 / 100000000)))

/-- Keys of the per-position key-value lists built from a zipped row are the
row's variable indices. -/
theorem zip_keys_map (row : List Ent) (msgs : List (Rat × Rat))
    (g : (Ent × (Rat × Rat)) → Rat) (hlen : msgs.length = row.length) :
    ((row.zip msgs).map (fun q => (q.1.i, g q))).map Prod.fst =
      row.map Ent.i := by
  rw [List.map_map]
  rw [show (Prod.fst ∘ fun q : Ent × (Rat × Rat) => (q.1.i, g q)) =
    (Ent.i ∘ Prod.fst) from rfl]
  rw [← List.map_map, List.map_fst_zip row msgs (le_of_eq hlen.symm)]

/-- Reading a committed marginal vector at a touched variable returns the
per-position value written for it. -/
theorem commit_getD_pointwise (marg : List Rat) (row : List Ent)
    (msgs : List (Rat × Rat)) (g : (Ent × (Rat × Rat)) → Rat)
    (hlen : msgs.length = row.length) (hnd : (row.map Ent.i).Nodup)
    (hb : ∀ e ∈ row, e.i < marg.length) (p : Ent × (Rat × Rat))
    (hp : p ∈ row.zip msgs) :
    (commitFold marg
        ((row.zip msgs).map (fun q => (q.1.i, g q)))).getD p.1.i 0 = g p := by
  refine commitFold_getD_of_mem marg _ (p.1.i, g p)
    (List.mem_map_of_mem _ hp) ?_ ?_
  · rw [zip_keys_map row msgs g hlen]
    exact hnd
  · exact hb p.1 (List.of_mem_zip hp).1

/-- Mapping over a zipped list with a function of the first component only is
mapping that function over the list of first components. -/
theorem map_fst_congr {A B C : Type} (L : List (A × B)) (f : A × B → C)
    (g : A → C) (h : ∀ p ∈ L, f p = g p.1) :
    L.map f = (L.map Prod.fst).map g := by
  rw [List.map_map]
  exact List.map_congr_left h

/-- C9: the reported delta equals the spec formula, where (mH, mRho) are the
moments on s_j computed from the marginals read before the update and
(mprH, mprRho) are the same moments computed from the post-commit
marginals. -/
theorem delta_metric_formula :
    (∀ mH mRho mprH mprRho : Rat,
      codeDelta mH mRho mprH mprRho = specDelta mH mRho mprH mprRho) ∧
    (∀ (st : EPSt) (piMin aMin cMin : Rat)
       (oracle : Rat → Rat → Rat → Rat → Option (Rat × Rat × Rat × Rat))
       (j : Nat) (damp : Rat) (we : Bool) (out : UpdOutput),
      sequentialUpdate st piMin aMin cMin oracle j damp true we =
        Except.ok out →
      out.status = UpdStatus.success →
      ((st.rows.getD j []).map Ent.i).Nodup →
      (∀ e ∈ st.rows.getD j [], e.i < st.margPi.length) →
      (∀ e ∈ st.rows.getD j [], e.i < st.margBeta.length) →
      out.deltaMoments = some
        ((margMoments st.margPi st.margBeta (st.rows.getD j [])).1,
         (margMoments st.margPi st.margBeta (st.rows.getD j [])).2,
         (margMoments out.st.margPi out.st.margBeta (st.rows.getD j [])).1,
         (margMoments out.st.margPi out.st.margBeta (st.rows.getD j [])).2)) := by
  constructor
  · intro mH mRho mprH mprRho
    unfold codeDelta specDelta maxRelDiff
    rw [abs_of_nonneg (Real.sqrt_nonneg ((mRho : Rat) : Real)),
      abs_of_nonneg (Real.sqrt_nonneg ((mprRho : Rat) : Real))]
  · intro st piMin aMin cMin oracle j damp we out h hs hnd hbp hbb
    unfold sequentialUpdate at h
    split_ifs at h with hv
    simp only [Except.ok.injEq] at h
    obtain ⟨r4, dm, damp2, hor, hml, hcl, hout⟩ :=
      updCore_success_inv st piMin aMin cMin oracle j damp true we out h hs
    have hlen : dm.2.length = (st.rows.getD j []).length :=
      msgLoop_length _ _ _ _ _ _ _ _ _ hml
    subst hout
    simp only [successOut, margMoments, if_true]
    set row := st.rows.getD j [] with hrow
    have hrowL : (row.zip dm.2).map Prod.fst = row :=
      List.map_fst_zip row dm.2 (le_of_eq hlen.symm)
    refine congrArg some ?_
    refine Prod.ext rfl (Prod.ext rfl (Prod.ext ?_ ?_))
    · have hcongr := map_fst_congr (row.zip dm.2)
        (fun p => (p.1.b / newMPi st.margPi damp2 p) *
          newMBeta st.margBeta damp2 p)
        (fun e => (e.b / (commitFold st.margPi ((row.zip dm.2).map
            (fun q => (q.1.i, newMPi st.margPi damp2 q)))).getD e.i 0) *
          (commitFold st.margBeta ((row.zip dm.2).map
            (fun q => (q.1.i, newMBeta st.margBeta damp2 q)))).getD e.i 0)
        (fun p hp => by
          dsimp only
          rw [commit_getD_pointwise st.margPi row dm.2
              (newMPi st.margPi damp2) hlen hnd hbp p hp,
            commit_getD_pointwise st.margBeta row dm.2
              (newMBeta st.margBeta damp2) hlen hnd hbb p hp])
      rw [hcongr, hrowL]
    · have hcongr := map_fst_congr (row.zip dm.2)
        (fun p => p.1.b * (p.1.b / newMPi st.margPi damp2 p))
        (fun e => e.b * (e.b / (commitFold st.margPi ((row.zip dm.2).map
            (fun q => (q.1.i, newMPi st.margPi damp2 q)))).getD e.i 0))
        (fun p hp => by
          dsimp only
          rw [commit_getD_pointwise st.margPi row dm.2
              (newMPi st.margPi damp2) hlen hnd hbp p hp])
      rw [hcongr, hrowL]

/-- C9 part 2 instantiated on exSt6 with the delta pointer supplied: the
returned moment quadruple is the pre-call and post-commit moments. -/
theorem delta_metric_formula_applied :
    (UpdOutput.mk UpdStatus.success exSt6out none
        (some (2/3, 1/3, 1/2, 1/2))).deltaMoments =
      some ((margMoments exSt6.margPi exSt6.margBeta (exSt6.rows.getD 0 [])).1,
            (margMoments exSt6.margPi exSt6.margBeta (exSt6.rows.getD 0 [])).2,
            (margMoments exSt6out.margPi exSt6out.margBeta
              (exSt6.rows.getD 0 [])).1,
            (margMoments exSt6out.margPi exSt6out.margBeta
              (exSt6.rows.getD 0 [])).2) :=
  delta_metric_formula.2 exSt6 (1/1000) 1 1 exOracleZero 0 0 false
    ⟨UpdStatus.success, exSt6out, none, some (2/3, 1/3, 1/2, 1/2)⟩
    (by norm_num [sequentialUpdate, updCore, cavACC, bvCavityBad, clampStage,
      successOut, exSt6, exSt6out, exOracleZero, cavPi, cavBeta, cavMoments,
      margMoments, msgLoop, compUndamped, newMPi, newMBeta, newEnt, dampPair,
      commitFold, bThres, denomThres, Except.map])
    rfl
    (by simp [exSt6])
    (by intro e he; simp [exSt6] at he; subst he; norm_num [exSt6])
    (by intro e he; simp [exSt6] at he; subst he; norm_num [exSt6])

end ApBsInT
